import Mathlib

/-!
Verification of `goverreport` (package `report`).

A shallow embedding of `src/report/report.go` and proofs about it.

Modelling decisions:

* Go `int` fields are modelled as `Int` (no arithmetic here comes near
  overflow, so no explicit wrap-around is needed).
* Go `float64` coverage percentages are modelled as `ℚ` (with Lean's
  `q / 0 = 0` convention standing in for the IEEE `NaN` obtained when an
  accumulator has zero blocks or statements).  No claim settled below
  depends on floating-point rounding: the comparisons that matter are on
  integer fields or of the degenerate shape `x < x`, which is false for
  `ℚ` exactly as it is for IEEE floats (including `NaN`).
* `strings.Replace(s, old, "", -1)` is modelled by `removeAllList`,
  which scans left to right and drops every non-overlapping occurrence,
  exactly as Go does.
* The `files` Go map is modelled as an association list in insertion
  order (`processProfiles`); Go's randomized map-iteration order and the
  unstable `sort.Slice` are together modelled by the relation
  `goSortResult`: the output is some permutation of the collected file
  summaries, and whenever the comparator is a valid strict weak order on
  the elements the output must moreover be sorted by it (this is the
  documented contract of `sort.Slice`; with an invalid comparator Go
  promises only a permutation).
* `cover.ParseProfiles` is external to the repository; `GenerateReport`
  is therefore modelled over its result, an
  `Except String (List Profile)`.
* Go returns the pair `(Report, error)`; this is modelled as
  `Report × Option String`, with the zero `Report{}` value made explicit
  so that claims about "empty Report alongside the error" are statable.
-/

/-- A single block of `cover.Profile` (`golang.org/x/tools/cover`):
statement count and execution count. -/
structure ProfileBlock where
  NumStmt : Int
  Count : Int
deriving DecidableEq, Repr

/-- A parsed per-file profile: raw file name plus its blocks. -/
structure Profile where
  FileName : String
  Blocks : List ProfileBlock
deriving DecidableEq, Repr

/-- The `Summary` struct of report.go. -/
structure Summary where
  Name : String
  Blocks : Int
  Stmts : Int
  MissingBlocks : Int
  MissingStmts : Int
  BlockCoverage : ℚ
  StmtCoverage : ℚ
deriving DecidableEq, Repr

/-- The `Report` struct of report.go. -/
structure Report where
  Total : Summary
  Files : List Summary
deriving DecidableEq, Repr

/-- The `accumulator` struct of report.go; the Go zero values of the
omitted fields are the defaults. -/
structure accumulator where
  name : String
  blocks : Int := 0
  stmts : Int := 0
  coveredBlocks : Int := 0
  coveredStmts : Int := 0
deriving DecidableEq, Repr

/-- Model of `func (a *accumulator) add(block cover.ProfileBlock)`. -/
def accumulator.add (a : accumulator) (block : ProfileBlock) : accumulator :=
  { a with
    blocks := a.blocks + 1
    stmts := a.stmts + block.NumStmt
    coveredBlocks := if block.Count > 0 then a.coveredBlocks + 1 else a.coveredBlocks
    coveredStmts := if block.Count > 0 then a.coveredStmts + block.NumStmt else a.coveredStmts }

/-- Model of `func (a *accumulator) results() Summary`. -/
def accumulator.results (a : accumulator) : Summary :=
  { Name := a.name
    Blocks := a.blocks
    Stmts := a.stmts
    MissingBlocks := a.blocks - a.coveredBlocks
    MissingStmts := a.stmts - a.coveredStmts
    BlockCoverage := (a.coveredBlocks : ℚ) / (a.blocks : ℚ) * 100
    StmtCoverage := (a.coveredStmts : ℚ) / (a.stmts : ℚ) * 100 }

/-- The inner loop `for _, block := range profile.Blocks { acc.add(block) }`. -/
def accumulator.addAll (a : accumulator) (blocks : List ProfileBlock) : accumulator :=
  blocks.foldl accumulator.add a

/-- Fuel-indexed worker for `removeAllList`; the fuel only makes the
recursion structural, it never runs out when it starts at the length of
the list (each step consumes at least one character). -/
def removeAllFuel (pat : List Char) : Nat → List Char → List Char
  | 0, s => s
  | _ + 1, [] => []
  | n + 1, c :: cs =>
    if pat ≠ [] ∧ pat.isPrefixOf (c :: cs) then
      removeAllFuel pat n (List.drop pat.length (c :: cs))
    else
      c :: removeAllFuel pat n cs

/-- Model of `strings.Replace s pat "" (-1)` on character lists: drop every
non-overlapping occurrence of `pat`, scanning left to right.  (Go's
`Replace` with an empty `old` inserts the empty replacement and returns
`s` unchanged; the `pat = []` guard reproduces that.) -/
def removeAllList (pat s : List Char) : List Char :=
  removeAllFuel pat s.length s

/-- Model of `strings.HasPrefix s pre` (byte order and code-point order agree for
UTF-8, so the character-list prefix test is faithful). -/
def goStartsWith (s pre : String) : Bool :=
  pre.toList.isPrefixOf s.toList

/-- Display-name computation of `GenerateReport` (report.go lines 36-41):
`if root == "" { fileName = profile.FileName } else
 { fileName = strings.Replace(profile.FileName, root+"/", "", -1) }`. -/
def displayName (root fileName : String) : String :=
  if root = "" then fileName
  else ⟨removeAllList (root ++ "/").toList fileName.toList⟩

/-- The exclusion loop of `GenerateReport` (report.go lines 42-47):
`skip` ends up true iff some exclusion prefixes the display name. -/
def isExcluded (fileName : String) (exclusions : List String) : Bool :=
  exclusions.any (fun e => goStartsWith fileName e)

/-- One entry per distinct retained display name, in first-insertion
order, modelling the Go map `files` (whose iteration order is handled
later, in the sort relation). -/
def updateFiles (files : List (String × accumulator)) (name : String)
    (blocks : List ProfileBlock) : List (String × accumulator) :=
  match files with
  | [] => [(name, accumulator.addAll { name := name } blocks)]
  | (n, a) :: rest =>
    if n = name then (n, accumulator.addAll a blocks) :: rest
    else (n, a) :: updateFiles rest name blocks

/-- One iteration of the main loop of `GenerateReport` (report.go lines
34-57): compute the display name, skip the profile when excluded,
otherwise accumulate all its blocks into the total and into its file's
accumulator. -/
def processStep (root : String) (exclusions : List String)
    (st : accumulator × List (String × accumulator)) (profile : Profile) :
    accumulator × List (String × accumulator) :=
  if isExcluded (displayName root profile.FileName) exclusions then st
  else (st.1.addAll profile.Blocks,
    updateFiles st.2 (displayName root profile.FileName) profile.Blocks)

/-- The main loop of `GenerateReport` (report.go lines 33-57): fold over
the profiles, skipping excluded files, accumulating every retained block
into the total and its file's accumulator. -/
def processProfiles (profiles : List Profile) (root : String)
    (exclusions : List String) : accumulator × List (String × accumulator) :=
  profiles.foldl (processStep root exclusions) ({ name := "Total" }, [])

/-- The `switch mode` of `sortResults` (report.go lines 119-141): the
element-wise comparator each recognized key installs.  Note the `"stmt"`
branch is transcribed exactly as written in the source:
`reports[j].StmtCoverage < reports[j].StmtCoverage` compares the second
element with itself. -/
def lessFun (mode : String) : Option (Summary → Summary → Bool) :=
  match mode with
  | "filename" => some (fun a b => decide (a.Name < b.Name))
  | "block" => some (fun a b => decide (a.BlockCoverage < b.BlockCoverage))
  | "stmt" => some (fun a b => decide (b.StmtCoverage < b.StmtCoverage))
  | "missing-blocks" => some (fun a b => decide (a.MissingBlocks < b.MissingBlocks))
  | "missing-stmts" => some (fun a b => decide (a.MissingStmts < b.MissingStmts))
  | _ => none

/-- The argument-validation part of `sortResults` (report.go lines
108-142): the `switch order` runs first and returns its error before the
`switch mode` is consulted; on success the effective comparator passed
to `sort.Slice` is `less` for `asc` and `!less` for `desc`. -/
def sortResultsCmp (mode order : String) :
    Except String (Summary → Summary → Bool) :=
  match order with
  | "asc" =>
    match lessFun mode with
    | some less => .ok less
    | none => .error "Invalid sort colum, must be one of filename, block, stmt, missing-blocks or missing-stmts"
  | "desc" =>
    match lessFun mode with
    | some less => .ok (fun a b => !(less a b))
    | none => .error "Invalid sort colum, must be one of filename, block, stmt, missing-blocks or missing-stmts"
  | _ => .error "Order must be either asc or desc"

/-- Decidable check that `cmp` is a strict weak order on the elements of
`l`: irreflexive, transitive, with transitive incomparability. -/
def validCmpOn {α : Type} (cmp : α → α → Bool) (l : List α) : Bool :=
  l.all (fun a => !cmp a a) &&
  l.all (fun a => l.all (fun b => l.all (fun c =>
    (!(cmp a b && cmp b c) || cmp a c) &&
    (!((!cmp a b && !cmp b a) && (!cmp b c && !cmp c b)) ||
      (!cmp a c && !cmp c a)))))

/-- Contract of Go's `sort.Slice` (an unstable sort): the output is a
permutation of the input, and whenever the comparator is a valid strict
weak order on the elements the output is sorted by it (no later element
compares less than an earlier one).  With an invalid comparator only the
permutation property is promised. -/
def goSortResult {α : Type} (cmp : α → α → Bool) (l out : List α) : Prop :=
  l.Perm out ∧
    (validCmpOn cmp l = true → out.Pairwise (fun a b => cmp b a = false))

/-- The Go zero value `Summary{}`. -/
def zeroSummary : Summary :=
  { Name := "", Blocks := 0, Stmts := 0, MissingBlocks := 0,
    MissingStmts := 0, BlockCoverage := 0, StmtCoverage := 0 }

/-- The Go zero value `Report{}`. -/
def zeroReport : Report := { Total := zeroSummary, Files := [] }

/-- Model of `GenerateReport` (report.go lines 28-62 together with `makeReport`,
lines 65-77), as a relation because the order in which the `files` map
is iterated, and the exact permutation an unstable `sort.Slice` settles
on, are not determined by the inputs.  `parsed` is the result of the
external `cover.ParseProfiles`; the result models Go's
`(Report, error)` pair. -/
def GenerateReportRel (parsed : Except String (List Profile)) (root : String)
    (exclusions : List String) (sortBy order : String)
    (res : Report × Option String) : Prop :=
  match parsed with
  | .error err =>
    res = (zeroReport, some ("Invalid coverprofile: '" ++ err ++ "'"))
  | .ok profiles =>
    let st := processProfiles profiles root exclusions
    let fileReports := st.2.map (fun p => p.2.results)
    match sortResultsCmp sortBy order with
    | .error e => res = (zeroReport, some e)
    | .ok cmp =>
      ∃ out, goSortResult cmp fileReports out ∧
        res = ({ Total := st.1.results, Files := out }, none)

/-! Helper lemmas about `removeAllFuel` / `removeAllList`. -/

/-- Decidable test for "`pat` occurs somewhere in `s`" (for nonempty
`pat`), used to state the amended C2. -/
def containsOccur (pat : List Char) : List Char → Bool
  | [] => false
  | c :: cs => pat.isPrefixOf (c :: cs) || containsOccur pat cs

lemma removeAllFuel_nil (pat : List Char) (n : Nat) :
    removeAllFuel pat n [] = [] := by
  cases n <;> rfl

/-- The fuel is irrelevant as soon as it covers the length of the list. -/
lemma removeAllFuel_congr (pat : List Char) :
    ∀ (n m : Nat) (s : List Char), s.length ≤ n → s.length ≤ m →
      removeAllFuel pat n s = removeAllFuel pat m s := by
  intro n
  induction n with
  | zero =>
    intro m s hn _
    have : s = [] := List.length_eq_zero.mp (Nat.le_zero.mp hn)
    subst this
    rw [removeAllFuel_nil, removeAllFuel_nil]
  | succ n ih =>
    intro m s hn hm
    cases s with
    | nil => rw [removeAllFuel_nil, removeAllFuel_nil]
    | cons c cs =>
      cases m with
      | zero => simp at hm
      | succ m =>
        show (if pat ≠ [] ∧ pat.isPrefixOf (c :: cs) then
                removeAllFuel pat n (List.drop pat.length (c :: cs))
              else c :: removeAllFuel pat n cs) = _
        rw [removeAllFuel]
        by_cases h : pat ≠ [] ∧ pat.isPrefixOf (c :: cs)
        · rw [if_pos h, if_pos h]
          have hpat : 1 ≤ pat.length := by
            cases pat with
            | nil => exact absurd rfl h.1
            | cons p ps => simp
          have hlen : (List.drop pat.length (c :: cs)).length ≤ cs.length := by
            simp only [List.length_drop, List.length_cons]
            omega
          exact ih m _ (le_trans hlen (Nat.lt_succ_iff.mp (Nat.lt_of_lt_of_le (Nat.lt_succ_of_le le_rfl) hn)))
            (le_trans hlen (by simpa using Nat.lt_succ_iff.mp (Nat.lt_of_succ_le hm)))
        · rw [if_neg h, if_neg h]
          have hcs : cs.length ≤ n := by simpa using hn
          have hcs' : cs.length ≤ m := by simpa using hm
          rw [ih m cs hcs hcs']

lemma removeAllList_nil (pat : List Char) : removeAllList pat [] = [] := rfl

/-- Unfolding `removeAllList` one step. -/
lemma removeAllList_cons (pat : List Char) (c : Char) (cs : List Char) :
    removeAllList pat (c :: cs) =
      if pat ≠ [] ∧ pat.isPrefixOf (c :: cs) then
        removeAllList pat (List.drop pat.length (c :: cs))
      else c :: removeAllList pat cs := by
  show removeAllFuel pat (cs.length + 1) (c :: cs) = _
  rw [removeAllFuel]
  by_cases h : pat ≠ [] ∧ pat.isPrefixOf (c :: cs)
  · rw [if_pos h, if_pos h]
    have hpat : 1 ≤ pat.length := by
      cases pat with
      | nil => exact absurd rfl h.1
      | cons p ps => simp
    apply removeAllFuel_congr
    · simp only [List.length_drop, List.length_cons]; omega
    · simp only [List.length_drop, List.length_cons]; omega
  · rw [if_neg h, if_neg h]; rfl

/-- A string without any occurrence of (nonempty) `pat` is unchanged. -/
lemma removeAllList_of_not_contains (pat : List Char) :
    ∀ s : List Char, containsOccur pat s = false → removeAllList pat s = s := by
  intro s
  induction s with
  | nil => intro _; rfl
  | cons c cs ih =>
    intro h
    rw [containsOccur] at h
    simp only [Bool.or_eq_false_iff] at h
    rw [removeAllList_cons, if_neg (by simp [h.1]), ih h.2]

/-- A list is a Boolean prefix of itself followed by anything. -/
lemma isPrefixOf_append_self : ∀ (p t : List Char), p.isPrefixOf (p ++ t) = true := by
  intro p
  induction p with
  | nil => intro t; cases t <;> rfl
  | cons c cs ih =>
    intro t
    show (c == c && cs.isPrefixOf (cs ++ t)) = true
    rw [ih]
    simp

/-- A leading occurrence of `pat` is removed and scanning continues. -/
lemma removeAllList_append_self (pat l : List Char) (hpat : pat ≠ []) :
    removeAllList pat (pat ++ l) = removeAllList pat l := by
  cases pat with
  | nil => exact absurd rfl hpat
  | cons d ds =>
    rw [List.cons_append, removeAllList_cons,
      if_pos ⟨hpat, by rw [← List.cons_append]; exact isPrefixOf_append_self _ l⟩,
      ← List.cons_append, List.drop_left]

/-! Claim C2: display-name computation. -/

/-- Definition following the WORDS OF THE SPEC (not the source), for
comparison with `displayName`: remove exactly one occurrence of
`root ++ "/"` from the start of the raw path, leave any other path
unchanged. -/
def specDisplayName (root fileName : String) : String :=
  if root = "" then fileName
  else if (root ++ "/").toList.isPrefixOf fileName.toList then
    ⟨fileName.toList.drop (root ++ "/").toList.length⟩
  else fileName

/-- C2 counterexample: with root `"a"` and raw path `"a/b/a/c"`, the code
removes every occurrence of `"a/"` (giving `"b/c"`), while the claim
demands only the leading occurrence be removed (giving `"b/a/c"`); the
file summary produced by `GenerateReport` indeed carries the name
`"b/c"`. -/
theorem displayName_strips_inner_occurrences_cex :
    displayName "a" "a/b/a/c" = "b/c" ∧
    specDisplayName "a" "a/b/a/c" = "b/a/c" ∧
    displayName "a" "a/b/a/c" ≠ specDisplayName "a" "a/b/a/c" ∧
    GenerateReportRel (.ok [⟨"a/b/a/c", [⟨1, 1⟩]⟩]) "a" [] "filename" "asc"
      ({ Total := accumulator.results ⟨"Total", 1, 1, 1, 1⟩,
         Files := [accumulator.results ⟨"b/c", 1, 1, 1, 1⟩] }, none) := by
  refine ⟨by decide, by decide, by decide, ?_⟩
  show ∃ out, goSortResult _ _ out ∧ _
  refine ⟨[accumulator.results ⟨"b/c", 1, 1, 1, 1⟩],
    ⟨List.Perm.refl _, fun _ => ?_⟩, rfl⟩
  exact List.pairwise_singleton _ _

/-- C2 amended: for a non-empty root, `GenerateReport`'s display name is
the raw path with EVERY left-to-right occurrence of `root ++ "/"`
removed (Go `strings.Replace` with count `-1`), not just a leading one:
a path containing no occurrence at all is unchanged, and a leading
occurrence is removed with scanning continuing on the rest. -/
theorem displayName_removes_every_occurrence (root p q : String) (h : root ≠ "") :
    (containsOccur (root ++ "/").toList p.toList = false → displayName root p = p) ∧
    displayName root ((root ++ "/") ++ q) = displayName root q := by
  have hpat : (root ++ "/").toList ≠ [] := by
    show (root ++ "/").data ≠ []
    rw [String.data_append]
    simp [show ("/" : String).data = ['/'] from rfl]
  constructor
  · intro hno
    rw [displayName, if_neg h, removeAllList_of_not_contains _ _ hno]
    rfl
  · rw [displayName, if_neg h, displayName, if_neg h]
    have : ((root ++ "/") ++ q).toList = (root ++ "/").toList ++ q.toList := by
      show ((root ++ "/") ++ q).data = (root ++ "/").data ++ q.data
      rw [String.data_append]
    rw [this, removeAllList_append_self _ _ hpat]

/-- C2 amended, witness at concrete inputs. -/
theorem displayName_removes_every_occurrence_witness :
    ((containsOccur ("a" ++ "/").toList "x/y".toList = false →
        displayName "a" "x/y" = "x/y") ∧
      displayName "a" (("a" ++ "/") ++ "z") = displayName "a" "z") :=
  displayName_removes_every_occurrence "a" "x/y" "z" (by decide)

/-! Claim C9: parse-error propagation. -/

/-- C9 counterexample: a parser failure with message `"boom"` is NOT
propagated unchanged; `GenerateReport` wraps it as
`Invalid coverprofile: 'boom'`. -/
theorem generateReport_parse_error_cex :
    GenerateReportRel (.error "boom") "" [] "filename" "asc"
      (zeroReport, some "Invalid coverprofile: 'boom'") ∧
    ¬ GenerateReportRel (.error "boom") "" [] "filename" "asc"
      (zeroReport, some "boom") := by
  constructor
  · rfl
  · intro hcontra
    have h : (zeroReport, some "boom") =
        ((zeroReport, some ("Invalid coverprofile: '" ++ "boom" ++ "'")) :
          Report × Option String) := hcontra
    exact absurd h (by decide)

/-- C9 amended: when the parser fails with message `e`, the whole call
fails with the wrapping message `Invalid coverprofile: 'e'` (not with
`e` itself), alongside the zero-value `Report` — so no accumulation and
no sorting took place. -/
theorem generateReport_parse_error_wrapped (e root : String)
    (exclusions : List String) (sortBy order : String)
    (res : Report × Option String)
    (h : GenerateReportRel (.error e) root exclusions sortBy order res) :
    res = (zeroReport, some ("Invalid coverprofile: '" ++ e ++ "'")) ∧
    res.1.Files = [] ∧ res.1.Total = zeroSummary := by
  have hres : res = (zeroReport, some ("Invalid coverprofile: '" ++ e ++ "'")) := h
  subst hres
  exact ⟨rfl, rfl, rfl⟩

/-- C9 amended, witness at concrete inputs. -/
theorem generateReport_parse_error_wrapped_witness :
    ((zeroReport, some "Invalid coverprofile: 'oops'") : Report × Option String) =
        (zeroReport, some ("Invalid coverprofile: '" ++ "oops" ++ "'")) ∧
      ((zeroReport, some "Invalid coverprofile: 'oops'") : Report × Option String).1.Files = [] ∧
      ((zeroReport, some "Invalid coverprofile: 'oops'") : Report × Option String).1.Total = zeroSummary :=
  generateReport_parse_error_wrapped "oops" "r" ["e"] "filename" "asc" _ rfl

/-! Destructuring lemmas for `GenerateReportRel`. -/

/-- When `sortResults` fails, `GenerateReport` returns the zero `Report`
together with that error. -/
lemma rel_of_cmp_error (profiles : List Profile) (root : String)
    (exclusions : List String) (sortBy order : String)
    (res : Report × Option String) (e : String)
    (hcmp : sortResultsCmp sortBy order = .error e)
    (h : GenerateReportRel (.ok profiles) root exclusions sortBy order res) :
    res = (zeroReport, some e) := by
  unfold GenerateReportRel at h
  rw [hcmp] at h
  exact h

/-- Destructuring a successful run of `GenerateReport`. -/
lemma rel_ok_elim (profiles : List Profile) (root : String)
    (exclusions : List String) (sortBy order : String) (rep : Report)
    (h : GenerateReportRel (.ok profiles) root exclusions sortBy order (rep, none)) :
    ∃ cmp out, sortResultsCmp sortBy order = .ok cmp ∧
      ((processProfiles profiles root exclusions).2.map (fun p => p.2.results)).Perm out ∧
      rep = { Total := (processProfiles profiles root exclusions).1.results,
              Files := out } := by
  unfold GenerateReportRel at h
  cases hcmp : sortResultsCmp sortBy order with
  | error e =>
    rw [hcmp] at h
    exact absurd (congrArg Prod.snd h) (by simp)
  | ok cmp =>
    rw [hcmp] at h
    obtain ⟨out, ⟨hperm, _⟩, heq⟩ := h
    exact ⟨cmp, out, rfl, hperm, congrArg Prod.fst heq⟩

/-! Claim C6: invalid sort arguments. -/

lemma lessFun_eq_none (mode : String) (h1 : mode ≠ "filename")
    (h2 : mode ≠ "block") (h3 : mode ≠ "stmt") (h4 : mode ≠ "missing-blocks")
    (h5 : mode ≠ "missing-stmts") : lessFun mode = none := by
  unfold lessFun
  split <;> simp_all

lemma sortResultsCmp_order_error (mode order : String) (h1 : order ≠ "asc")
    (h2 : order ≠ "desc") :
    sortResultsCmp mode order = .error "Order must be either asc or desc" := by
  unfold sortResultsCmp
  split <;> simp_all

lemma sortResultsCmp_mode_error (mode order : String)
    (horder : order = "asc" ∨ order = "desc") (h1 : mode ≠ "filename")
    (h2 : mode ≠ "block") (h3 : mode ≠ "stmt") (h4 : mode ≠ "missing-blocks")
    (h5 : mode ≠ "missing-stmts") :
    sortResultsCmp mode order =
      .error "Invalid sort colum, must be one of filename, block, stmt, missing-blocks or missing-stmts" := by
  have hnone := lessFun_eq_none mode h1 h2 h3 h4 h5
  rcases horder with h | h <;> subst h
  · have hred : sortResultsCmp mode "asc" = (match lessFun mode with
      | some less => Except.ok less
      | none => Except.error "Invalid sort colum, must be one of filename, block, stmt, missing-blocks or missing-stmts") := rfl
    rw [hred, hnone]
  · have hred : sortResultsCmp mode "desc" = (match lessFun mode with
      | some less => Except.ok (fun a b => !(less a b))
      | none => Except.error "Invalid sort colum, must be one of filename, block, stmt, missing-blocks or missing-stmts") := rfl
    rw [hred, hnone]

/-- C6: with an unrecognized direction or an unrecognized key (after a
successful parse), `GenerateReport` returns an error alongside the zero
`Report`, never a populated one; and an invalid direction wins over an
invalid key, because the direction `switch` runs first. -/
theorem generateReport_rejects_invalid_args (profiles : List Profile)
    (root : String) (exclusions : List String) (sortBy order : String)
    (res : Report × Option String)
    (h : GenerateReportRel (.ok profiles) root exclusions sortBy order res)
    (hbad : (order ≠ "asc" ∧ order ≠ "desc") ∨
      (sortBy ≠ "filename" ∧ sortBy ≠ "block" ∧ sortBy ≠ "stmt" ∧
        sortBy ≠ "missing-blocks" ∧ sortBy ≠ "missing-stmts")) :
    (∃ e, res = (zeroReport, some e)) ∧
    (order ≠ "asc" → order ≠ "desc" →
      res = (zeroReport, some "Order must be either asc or desc")) := by
  constructor
  · rcases hbad with ⟨h1, h2⟩ | ⟨h1, h2, h3, h4, h5⟩
    · exact ⟨_, rel_of_cmp_error _ _ _ _ _ _ _
        (sortResultsCmp_order_error sortBy order h1 h2) h⟩
    · by_cases ha : order = "asc"
      · exact ⟨_, rel_of_cmp_error _ _ _ _ _ _ _
          (sortResultsCmp_mode_error sortBy order (Or.inl ha) h1 h2 h3 h4 h5) h⟩
      · by_cases hd : order = "desc"
        · exact ⟨_, rel_of_cmp_error _ _ _ _ _ _ _
            (sortResultsCmp_mode_error sortBy order (Or.inr hd) h1 h2 h3 h4 h5) h⟩
        · exact ⟨_, rel_of_cmp_error _ _ _ _ _ _ _
            (sortResultsCmp_order_error sortBy order ha hd) h⟩
  · intro h1 h2
    exact rel_of_cmp_error _ _ _ _ _ _ _
      (sortResultsCmp_order_error sortBy order h1 h2) h

/-- C6, witness: `order = "bogus"` at a concrete input. -/
theorem generateReport_rejects_invalid_args_witness :
    (∃ e, ((zeroReport, some "Order must be either asc or desc") :
        Report × Option String) = (zeroReport, some e)) ∧
    ("bogus" ≠ "asc" → "bogus" ≠ "desc" →
      ((zeroReport, some "Order must be either asc or desc") :
        Report × Option String) = (zeroReport, some "Order must be either asc or desc")) :=
  generateReport_rejects_invalid_args [] "" [] "stmt" "bogus" _ rfl
    (Or.inl ⟨by decide, by decide⟩)

/-! Claim C10: an empty-string exclusion excludes everything. -/

lemma isExcluded_of_empty_mem (s : String) (exclusions : List String)
    (h : "" ∈ exclusions) : isExcluded s exclusions = true := by
  unfold isExcluded
  rw [List.any_eq_true]
  refine ⟨"", h, ?_⟩
  show List.isPrefixOf [] s.toList = true
  cases hs : s.toList <;> rfl

lemma processProfiles_all_excluded (profiles : List Profile) (root : String)
    (exclusions : List String) (h : "" ∈ exclusions) :
    processProfiles profiles root exclusions = ({ name := "Total" }, []) := by
  unfold processProfiles
  suffices h' : ∀ st : accumulator × List (String × accumulator),
      profiles.foldl (processStep root exclusions) st = st from h' _
  intro st
  induction profiles generalizing st with
  | nil => rfl
  | cons p ps ih =>
    rw [List.foldl_cons]
    have hstep : processStep root exclusions st p = st := by
      unfold processStep
      rw [isExcluded_of_empty_mem _ _ h]
      simp
    rw [hstep]
    exact ih st

/-- C10: when the exclusion list contains the empty string, every
display name matches it as a prefix, so a successfully parsed profile
with valid sort arguments yields a `Report` with no files and an
all-zero Total. -/
theorem generateReport_empty_exclusion (profiles : List Profile)
    (root : String) (exclusions : List String) (sortBy order : String)
    (rep : Report) (err : Option String)
    (hmem : "" ∈ exclusions)
    (horder : order = "asc" ∨ order = "desc")
    (hkey : sortBy = "filename" ∨ sortBy = "block" ∨ sortBy = "stmt" ∨
      sortBy = "missing-blocks" ∨ sortBy = "missing-stmts")
    (h : GenerateReportRel (.ok profiles) root exclusions sortBy order (rep, err)) :
    err = none ∧ rep.Files = [] ∧ rep.Total.Blocks = 0 ∧ rep.Total.Stmts = 0 ∧
      rep.Total.MissingBlocks = 0 ∧ rep.Total.MissingStmts = 0 := by
  obtain ⟨less, hless⟩ : ∃ less, lessFun sortBy = some less := by
    rcases hkey with h' | h' | h' | h' | h' <;> subst h' <;> exact ⟨_, rfl⟩
  obtain ⟨cmp, hcmp⟩ : ∃ cmp, sortResultsCmp sortBy order = .ok cmp := by
    rcases horder with h' | h' <;> subst h' <;> unfold sortResultsCmp <;>
      rw [hless] <;> exact ⟨_, rfl⟩
  unfold GenerateReportRel at h
  rw [hcmp] at h
  obtain ⟨out, ⟨hperm, _⟩, heq⟩ := h
  rw [processProfiles_all_excluded profiles root exclusions hmem] at hperm heq
  have hout : out = [] := (List.Perm.nil_eq (by simpa using hperm)).symm
  subst hout
  have h1 : rep = { Total := accumulator.results ⟨"Total", 0, 0, 0, 0⟩, Files := [] } :=
    congrArg Prod.fst heq
  have h2 : err = none := congrArg Prod.snd heq
  subst h1
  exact ⟨h2, rfl, rfl, rfl, rfl, rfl⟩

/-- C10, witness at a concrete input. -/
theorem generateReport_empty_exclusion_witness :
    (none : Option String) = none ∧
    (Report.mk (accumulator.results ⟨"Total", 0, 0, 0, 0⟩) []).Files = [] ∧
    (Report.mk (accumulator.results ⟨"Total", 0, 0, 0, 0⟩) []).Total.Blocks = 0 ∧
    (Report.mk (accumulator.results ⟨"Total", 0, 0, 0, 0⟩) []).Total.Stmts = 0 ∧
    (Report.mk (accumulator.results ⟨"Total", 0, 0, 0, 0⟩) []).Total.MissingBlocks = 0 ∧
    (Report.mk (accumulator.results ⟨"Total", 0, 0, 0, 0⟩) []).Total.MissingStmts = 0 :=
  generateReport_empty_exclusion [⟨"x", [⟨2, 1⟩]⟩] "" [""] "filename" "asc" _ _
    (by decide) (Or.inl rfl) (Or.inl rfl)
    ⟨[], ⟨List.Perm.refl _, fun _ => List.Pairwise.nil⟩, rfl⟩

/-! Claims C1, C3, C7: concrete sorting behaviour. -/

/-- Two files, both fully covered: their summaries tie on every numeric
sort key. -/
def tieProfiles : List Profile := [⟨"a", [⟨1, 1⟩]⟩, ⟨"b", [⟨1, 1⟩]⟩]

/-- The file summary of `"a"` in `tieProfiles`. -/
def tieSummaryA : Summary := accumulator.results ⟨"a", 1, 1, 1, 1⟩

/-- The file summary of `"b"` in `tieProfiles`. -/
def tieSummaryB : Summary := accumulator.results ⟨"b", 1, 1, 1, 1⟩

/-- C1, evaluating the code at the failing input: the `"stmt"` comparator
(`reports[j].StmtCoverage < reports[j].StmtCoverage`) is constantly
false, so with key `"stmt"` and direction `"asc"` the sort places no
constraint at all: for the two-file profile where `"a"` is fully covered
and `"b"` is fully uncovered, the unsorted output
`[summary of "a" (100%), summary of "b" (0%)]` is a valid result of
`GenerateReport`, although the second coverage is strictly below the
first — the claimed non-decreasing order by `StmtCoverage` fails. -/
theorem sortResults_stmt_comparator_cex :
    ∃ cmp, sortResultsCmp "stmt" "asc" = .ok cmp ∧
      (∀ a b : Summary, cmp a b = false) ∧
      (accumulator.results ⟨"b", 1, 1, 0, 0⟩).StmtCoverage <
        (accumulator.results ⟨"a", 1, 1, 1, 1⟩).StmtCoverage ∧
      GenerateReportRel (.ok [⟨"a", [⟨1, 1⟩]⟩, ⟨"b", [⟨1, 0⟩]⟩]) "" [] "stmt" "asc"
        ({ Total := accumulator.results ⟨"Total", 2, 2, 1, 1⟩,
           Files := [accumulator.results ⟨"a", 1, 1, 1, 1⟩,
                     accumulator.results ⟨"b", 1, 1, 0, 0⟩] }, none) := by
  refine ⟨fun a b => decide (b.StmtCoverage < b.StmtCoverage), rfl, ?_, ?_, ?_⟩
  · intro a b
    exact decide_eq_false (lt_irrefl _)
  · show ((0 : ℚ) / (1 : ℚ) * 100) < ((1 : ℚ) / (1 : ℚ) * 100)
    norm_num
  · show ∃ out, goSortResult _ _ out ∧ _
    refine ⟨[accumulator.results ⟨"a", 1, 1, 1, 1⟩,
             accumulator.results ⟨"b", 1, 1, 0, 0⟩],
      ⟨List.Perm.refl _, fun _ => ?_⟩, rfl⟩
    exact List.Pairwise.cons
      (fun y _ => decide_eq_false (lt_irrefl _))
      (List.pairwise_singleton _ _)

/-- C3, evaluating the code at the failing input: for direction `"desc"`
the effective comparator is `!less`, which on two summaries tying on
`MissingBlocks` answers `true` in BOTH directions (it is not
antisymmetric), and `sort.Slice` gives no stability guarantee for it; in
the model, the output with the two tied summaries SWAPPED relative to
their pre-sort order is a valid result of `GenerateReport`, refuting the
claim that equal-key elements keep their pre-sort relative order. -/
theorem sortResults_desc_reorders_ties_cex :
    ∃ cmp, sortResultsCmp "missing-blocks" "desc" = .ok cmp ∧
      cmp tieSummaryA tieSummaryB = true ∧
      cmp tieSummaryB tieSummaryA = true ∧
      tieSummaryA ≠ tieSummaryB ∧
      tieSummaryA.MissingBlocks = tieSummaryB.MissingBlocks ∧
      GenerateReportRel (.ok tieProfiles) "" [] "missing-blocks" "desc"
        ({ Total := accumulator.results ⟨"Total", 2, 2, 2, 2⟩,
           Files := [tieSummaryB, tieSummaryA] }, none) := by
  refine ⟨fun a b => !(decide (a.MissingBlocks < b.MissingBlocks)), rfl,
    by decide, by decide, ?_, by decide, ?_⟩
  · intro hcontra
    exact absurd (congrArg Summary.Name hcontra) (by decide)
  · show ∃ out, goSortResult _ _ out ∧ _
    refine ⟨[tieSummaryB, tieSummaryA], ⟨?_, fun hvalid => absurd hvalid (by decide)⟩, rfl⟩
    exact List.Perm.swap _ _ _

/-- C7 counterexample: for the two-files-tied input, BOTH orders of the
two equal-key summaries are valid results of the very same
`GenerateReport` call (map iteration order is randomized and
`sort.Slice` is unstable), and the two reports differ — so two calls
with identical inputs need not return identical Reports. -/
theorem generateReport_two_results_cex :
    GenerateReportRel (.ok tieProfiles) "" [] "missing-blocks" "asc"
      ({ Total := accumulator.results ⟨"Total", 2, 2, 2, 2⟩,
         Files := [tieSummaryA, tieSummaryB] }, none) ∧
    GenerateReportRel (.ok tieProfiles) "" [] "missing-blocks" "asc"
      ({ Total := accumulator.results ⟨"Total", 2, 2, 2, 2⟩,
         Files := [tieSummaryB, tieSummaryA] }, none) ∧
    ({ Total := accumulator.results ⟨"Total", 2, 2, 2, 2⟩,
       Files := [tieSummaryA, tieSummaryB] } : Report) ≠
      { Total := accumulator.results ⟨"Total", 2, 2, 2, 2⟩,
        Files := [tieSummaryB, tieSummaryA] } := by
  refine ⟨?_, ?_, ?_⟩
  · show ∃ out, goSortResult _ _ out ∧ _
    refine ⟨[tieSummaryA, tieSummaryB], ⟨List.Perm.refl _, fun _ => ?_⟩, rfl⟩
    exact List.Pairwise.cons (fun y hy => by
        rw [List.mem_singleton] at hy
        subst hy
        decide)
      (List.pairwise_singleton _ _)
  · show ∃ out, goSortResult _ _ out ∧ _
    refine ⟨[tieSummaryB, tieSummaryA], ⟨List.Perm.swap _ _ _, fun _ => ?_⟩, rfl⟩
    exact List.Pairwise.cons (fun y hy => by
        rw [List.mem_singleton] at hy
        subst hy
        decide)
      (List.pairwise_singleton _ _)
  · intro hcontra
    have h2 := congrArg (fun r => r.Files.map Summary.Name) hcontra
    exact absurd h2 (by decide)

/-- C7 amended: `GenerateReport` is deterministic up to the order of
equal-key summaries: two runs on identical inputs agree on the error
component, on the Total summary, and on the multiset of per-file
summaries; the order inside `Files` may differ (ties under the chosen
comparator are placed arbitrarily, because the source sorts a
randomized-order map traversal with an unstable sort). -/
theorem generateReport_deterministic_up_to_perm
    (parsed : Except String (List Profile)) (root : String)
    (exclusions : List String) (sortBy order : String)
    (res₁ res₂ : Report × Option String)
    (h₁ : GenerateReportRel parsed root exclusions sortBy order res₁)
    (h₂ : GenerateReportRel parsed root exclusions sortBy order res₂) :
    res₁.2 = res₂.2 ∧ res₁.1.Total = res₂.1.Total ∧
      res₁.1.Files.Perm res₂.1.Files := by
  cases parsed with
  | error e =>
    have e₁ : res₁ = (zeroReport, some ("Invalid coverprofile: '" ++ e ++ "'")) := h₁
    have e₂ : res₂ = (zeroReport, some ("Invalid coverprofile: '" ++ e ++ "'")) := h₂
    rw [e₁, e₂]
    exact ⟨rfl, rfl, List.Perm.refl _⟩
  | ok profiles =>
    unfold GenerateReportRel at h₁ h₂
    cases hcmp : sortResultsCmp sortBy order with
    | error e =>
      rw [hcmp] at h₁ h₂
      have e₁ : res₁ = (zeroReport, some e) := h₁
      have e₂ : res₂ = (zeroReport, some e) := h₂
      rw [e₁, e₂]
      exact ⟨rfl, rfl, List.Perm.refl _⟩
    | ok cmp =>
      rw [hcmp] at h₁ h₂
      obtain ⟨out₁, ⟨hperm₁, _⟩, heq₁⟩ := h₁
      obtain ⟨out₂, ⟨hperm₂, _⟩, heq₂⟩ := h₂
      rw [heq₁, heq₂]
      exact ⟨rfl, rfl, hperm₁.symm.trans hperm₂⟩

/-- C7 amended, witness at a concrete input. -/
theorem generateReport_deterministic_up_to_perm_witness :
    (({ Total := accumulator.results ⟨"Total", 2, 2, 2, 2⟩,
        Files := [tieSummaryA, tieSummaryB] } : Report), (none : Option String)).2 =
      (({ Total := accumulator.results ⟨"Total", 2, 2, 2, 2⟩,
          Files := [tieSummaryA, tieSummaryB] } : Report), (none : Option String)).2 ∧
    (({ Total := accumulator.results ⟨"Total", 2, 2, 2, 2⟩,
        Files := [tieSummaryA, tieSummaryB] } : Report), (none : Option String)).1.Total =
      (({ Total := accumulator.results ⟨"Total", 2, 2, 2, 2⟩,
          Files := [tieSummaryA, tieSummaryB] } : Report), (none : Option String)).1.Total ∧
    (({ Total := accumulator.results ⟨"Total", 2, 2, 2, 2⟩,
        Files := [tieSummaryA, tieSummaryB] } : Report), (none : Option String)).1.Files.Perm
      (({ Total := accumulator.results ⟨"Total", 2, 2, 2, 2⟩,
          Files := [tieSummaryA, tieSummaryB] } : Report), (none : Option String)).1.Files := by
  have hrel : GenerateReportRel (.ok tieProfiles) "" [] "missing-blocks" "asc"
      ({ Total := accumulator.results ⟨"Total", 2, 2, 2, 2⟩,
         Files := [tieSummaryA, tieSummaryB] }, none) := by
    show ∃ out, goSortResult _ _ out ∧ _
    refine ⟨[tieSummaryA, tieSummaryB], ⟨List.Perm.refl _, fun _ => ?_⟩, rfl⟩
    exact List.Pairwise.cons (fun y hy => by
        rw [List.mem_singleton] at hy
        subst hy
        decide)
      (List.pairwise_singleton _ _)
  exact generateReport_deterministic_up_to_perm (.ok tieProfiles) "" []
    "missing-blocks" "asc" _ _ hrel hrel

/-! Claim C4: the Total accumulator is the sum of the per-file
accumulators, for any integer field that `add` changes by a per-block
delta. -/

lemma addAll_field (f : accumulator → Int) (δ : ProfileBlock → Int)
    (hadd : ∀ a b, f (a.add b) = f a + δ b) :
    ∀ (bs : List ProfileBlock) (a : accumulator),
      f (a.addAll bs) = f a + (bs.map δ).sum := by
  intro bs
  induction bs with
  | nil => intro a; simp [accumulator.addAll]
  | cons b rest ih =>
    intro a
    show f ((a.add b).addAll rest) = _
    rw [ih, hadd]
    simp [add_assoc]

lemma updateFiles_field_sum (f : accumulator → Int) (δ : ProfileBlock → Int)
    (hadd : ∀ a b, f (a.add b) = f a + δ b)
    (hzero : ∀ n : String, f ⟨n, 0, 0, 0, 0⟩ = 0) :
    ∀ (files : List (String × accumulator)) (name : String)
      (bs : List ProfileBlock),
      ((updateFiles files name bs).map (fun p => f p.2)).sum =
        ((files.map (fun p => f p.2)).sum) + (bs.map δ).sum := by
  intro files
  induction files with
  | nil =>
    intro name bs
    show [f (accumulator.addAll { name := name } bs)].sum = _
    rw [List.sum_singleton, addAll_field f δ hadd, hzero]
    simp
  | cons entry rest ih =>
    intro name bs
    obtain ⟨n, a⟩ := entry
    rw [updateFiles]
    by_cases hn : n = name
    · rw [if_pos hn]
      simp only [List.map_cons, List.sum_cons, addAll_field f δ hadd]
      ring
    · rw [if_neg hn]
      simp only [List.map_cons, List.sum_cons, ih]
      ring

lemma foldl_field_sum (f : accumulator → Int) (δ : ProfileBlock → Int)
    (hadd : ∀ a b, f (a.add b) = f a + δ b)
    (hzero : ∀ n : String, f ⟨n, 0, 0, 0, 0⟩ = 0)
    (root : String) (exclusions : List String) :
    ∀ (profiles : List Profile) (st : accumulator × List (String × accumulator)),
      f st.1 = (st.2.map (fun p => f p.2)).sum →
      f (profiles.foldl (processStep root exclusions) st).1 =
        (((profiles.foldl (processStep root exclusions) st).2).map
          (fun p => f p.2)).sum := by
  intro profiles
  induction profiles with
  | nil => intro st h; exact h
  | cons pr rest ih =>
    intro st h
    rw [List.foldl_cons]
    apply ih
    unfold processStep
    by_cases hex : isExcluded (displayName root pr.FileName) exclusions = true
    · rw [if_pos hex]; exact h
    · rw [if_neg hex]
      show f (st.1.addAll pr.Blocks) = _
      rw [addAll_field f δ hadd, updateFiles_field_sum f δ hadd hzero, h]

/-- Sum decomposition of `processProfiles`, for any linear field. -/
lemma processProfiles_field_sum (f : accumulator → Int) (δ : ProfileBlock → Int)
    (hadd : ∀ a b, f (a.add b) = f a + δ b)
    (hzero : ∀ n : String, f ⟨n, 0, 0, 0, 0⟩ = 0)
    (profiles : List Profile) (root : String) (exclusions : List String) :
    f (processProfiles profiles root exclusions).1 =
      (((processProfiles profiles root exclusions).2).map (fun p => f p.2)).sum := by
  unfold processProfiles
  exact foldl_field_sum f δ hadd hzero root exclusions profiles _ (by rw [hzero]; rfl)

/-- C4: in every successful `GenerateReport` run the Total summary's
Blocks, Stmts, MissingBlocks and MissingStmts each equal the sum of that
field over the per-file summaries (excluded files on neither side). -/
theorem generateReport_total_is_sum (profiles : List Profile) (root : String)
    (exclusions : List String) (sortBy order : String) (rep : Report)
    (h : GenerateReportRel (.ok profiles) root exclusions sortBy order (rep, none)) :
    rep.Total.Blocks = (rep.Files.map Summary.Blocks).sum ∧
    rep.Total.Stmts = (rep.Files.map Summary.Stmts).sum ∧
    rep.Total.MissingBlocks = (rep.Files.map Summary.MissingBlocks).sum ∧
    rep.Total.MissingStmts = (rep.Files.map Summary.MissingStmts).sum := by
  obtain ⟨cmp, out, hcmp, hperm, hrep⟩ := rel_ok_elim profiles root exclusions sortBy order rep h
  subst hrep
  refine ⟨?_, ?_, ?_, ?_⟩
  · have hsum := (hperm.map Summary.Blocks).sum_eq
    show (processProfiles profiles root exclusions).1.blocks = (out.map Summary.Blocks).sum
    rw [← hsum, List.map_map]
    exact processProfiles_field_sum (fun a => a.blocks) (fun _ => 1)
      (fun a b => rfl) (fun n => rfl) profiles root exclusions
  · have hsum := (hperm.map Summary.Stmts).sum_eq
    show (processProfiles profiles root exclusions).1.stmts = (out.map Summary.Stmts).sum
    rw [← hsum, List.map_map]
    exact processProfiles_field_sum (fun a => a.stmts) (fun b => b.NumStmt)
      (fun a b => rfl) (fun n => rfl) profiles root exclusions
  · have hsum := (hperm.map Summary.MissingBlocks).sum_eq
    show (processProfiles profiles root exclusions).1.blocks -
      (processProfiles profiles root exclusions).1.coveredBlocks = (out.map Summary.MissingBlocks).sum
    rw [← hsum, List.map_map]
    exact processProfiles_field_sum (fun a => a.blocks - a.coveredBlocks)
      (fun b => 1 - (if b.Count > 0 then 1 else 0))
      (fun a b => by
        show (a.blocks + 1) - (if b.Count > 0 then a.coveredBlocks + 1 else a.coveredBlocks) = _
        by_cases hc : b.Count > 0 <;> simp [hc] <;> ring)
      (fun n => rfl) profiles root exclusions
  · have hsum := (hperm.map Summary.MissingStmts).sum_eq
    show (processProfiles profiles root exclusions).1.stmts -
      (processProfiles profiles root exclusions).1.coveredStmts = (out.map Summary.MissingStmts).sum
    rw [← hsum, List.map_map]
    exact processProfiles_field_sum (fun a => a.stmts - a.coveredStmts)
      (fun b => b.NumStmt - (if b.Count > 0 then b.NumStmt else 0))
      (fun a b => by
        show (a.stmts + b.NumStmt) - (if b.Count > 0 then a.coveredStmts + b.NumStmt else a.coveredStmts) = _
        by_cases hc : b.Count > 0 <;> simp [hc] <;> ring)
      (fun n => rfl) profiles root exclusions

/-- C4, witness at the spec's two-file scenario (sorted by
`missing-stmts` ascending: `"b"` has 0 missing statements, `"a"` has 2). -/
theorem generateReport_total_is_sum_witness :
    (Report.mk (accumulator.results ⟨"Total", 3, 10, 2, 8⟩)
        [accumulator.results ⟨"b", 1, 5, 1, 5⟩,
         accumulator.results ⟨"a", 2, 5, 1, 3⟩]).Total.Blocks =
      ((Report.mk (accumulator.results ⟨"Total", 3, 10, 2, 8⟩)
        [accumulator.results ⟨"b", 1, 5, 1, 5⟩,
         accumulator.results ⟨"a", 2, 5, 1, 3⟩]).Files.map Summary.Blocks).sum ∧
    (Report.mk (accumulator.results ⟨"Total", 3, 10, 2, 8⟩)
        [accumulator.results ⟨"b", 1, 5, 1, 5⟩,
         accumulator.results ⟨"a", 2, 5, 1, 3⟩]).Total.Stmts =
      ((Report.mk (accumulator.results ⟨"Total", 3, 10, 2, 8⟩)
        [accumulator.results ⟨"b", 1, 5, 1, 5⟩,
         accumulator.results ⟨"a", 2, 5, 1, 3⟩]).Files.map Summary.Stmts).sum ∧
    (Report.mk (accumulator.results ⟨"Total", 3, 10, 2, 8⟩)
        [accumulator.results ⟨"b", 1, 5, 1, 5⟩,
         accumulator.results ⟨"a", 2, 5, 1, 3⟩]).Total.MissingBlocks =
      ((Report.mk (accumulator.results ⟨"Total", 3, 10, 2, 8⟩)
        [accumulator.results ⟨"b", 1, 5, 1, 5⟩,
         accumulator.results ⟨"a", 2, 5, 1, 3⟩]).Files.map Summary.MissingBlocks).sum ∧
    (Report.mk (accumulator.results ⟨"Total", 3, 10, 2, 8⟩)
        [accumulator.results ⟨"b", 1, 5, 1, 5⟩,
         accumulator.results ⟨"a", 2, 5, 1, 3⟩]).Total.MissingStmts =
      ((Report.mk (accumulator.results ⟨"Total", 3, 10, 2, 8⟩)
        [accumulator.results ⟨"b", 1, 5, 1, 5⟩,
         accumulator.results ⟨"a", 2, 5, 1, 3⟩]).Files.map Summary.MissingStmts).sum := by
  have hrel : GenerateReportRel (.ok [⟨"a", [⟨3, 1⟩, ⟨2, 0⟩]⟩, ⟨"b", [⟨5, 5⟩]⟩])
      "" [] "missing-stmts" "asc"
      (Report.mk (accumulator.results ⟨"Total", 3, 10, 2, 8⟩)
        [accumulator.results ⟨"b", 1, 5, 1, 5⟩,
         accumulator.results ⟨"a", 2, 5, 1, 3⟩], none) := by
    show ∃ out, goSortResult _ _ out ∧ _
    refine ⟨[accumulator.results ⟨"b", 1, 5, 1, 5⟩,
             accumulator.results ⟨"a", 2, 5, 1, 3⟩],
      ⟨List.Perm.swap _ _ _, fun _ => ?_⟩, rfl⟩
    exact List.Pairwise.cons (fun y hy => by
        rw [List.mem_singleton] at hy
        subst hy
        decide)
      (List.pairwise_singleton _ _)
  exact generateReport_total_is_sum [⟨"a", [⟨3, 1⟩, ⟨2, 0⟩]⟩, ⟨"b", [⟨5, 5⟩]⟩]
    "" [] "missing-stmts" "asc" _ hrel

/-! Claim C5: exclusions contribute to nothing. -/

lemma addAll_name : ∀ (bs : List ProfileBlock) (a : accumulator),
    (a.addAll bs).name = a.name := by
  intro bs
  induction bs with
  | nil => intro a; rfl
  | cons b rest ih =>
    intro a
    show ((a.add b).addAll rest).name = _
    rw [ih]
    rfl

lemma updateFiles_names (P : String → Prop) :
    ∀ (files : List (String × accumulator)) (name : String)
      (bs : List ProfileBlock),
      (∀ e ∈ files, P e.1 ∧ e.2.name = e.1) → P name →
      ∀ e ∈ updateFiles files name bs, P e.1 ∧ e.2.name = e.1 := by
  intro files
  induction files with
  | nil =>
    intro name bs _ hP e he
    rw [updateFiles, List.mem_singleton] at he
    subst he
    exact ⟨hP, by rw [addAll_name]⟩
  | cons entry rest ih =>
    intro name bs hfiles hP e he
    obtain ⟨n, a⟩ := entry
    rw [updateFiles] at he
    by_cases hn : n = name
    · rw [if_pos hn] at he
      rcases List.mem_cons.mp he with h' | h'
      · subst h'
        refine ⟨(hfiles (n, a) (List.mem_cons_self _ _)).1, ?_⟩
        show (a.addAll bs).name = n
        rw [addAll_name]
        exact (hfiles (n, a) (List.mem_cons_self _ _)).2
      · exact hfiles e (List.mem_cons_of_mem _ h')
    · rw [if_neg hn] at he
      rcases List.mem_cons.mp he with h' | h'
      · subst h'
        exact hfiles (n, a) (List.mem_cons_self _ _)
      · exact ih name bs (fun e' he' => hfiles e' (List.mem_cons_of_mem _ he')) hP e h'

lemma foldl_names (root : String) (exclusions : List String) :
    ∀ (profiles : List Profile) (st : accumulator × List (String × accumulator)),
      (∀ e ∈ st.2, isExcluded e.1 exclusions = false ∧ e.2.name = e.1) →
      ∀ e ∈ (profiles.foldl (processStep root exclusions) st).2,
        isExcluded e.1 exclusions = false ∧ e.2.name = e.1 := by
  intro profiles
  induction profiles with
  | nil => intro st h; exact h
  | cons pr rest ih =>
    intro st h
    rw [List.foldl_cons]
    apply ih
    unfold processStep
    by_cases hex : isExcluded (displayName root pr.FileName) exclusions = true
    · rw [if_pos hex]; exact h
    · rw [if_neg hex]
      exact updateFiles_names (fun nm => isExcluded nm exclusions = false)
        st.2 _ _ h (by simpa using hex)

lemma foldl_filter_retained (root : String) (exclusions : List String) :
    ∀ (profiles : List Profile) (st : accumulator × List (String × accumulator)),
      profiles.foldl (processStep root exclusions) st =
        (profiles.filter
          (fun p => !isExcluded (displayName root p.FileName) exclusions)).foldl
          (processStep root exclusions) st := by
  intro profiles
  induction profiles with
  | nil => intro st; rfl
  | cons pr rest ih =>
    intro st
    rw [List.foldl_cons, List.filter_cons]
    cases hex : isExcluded (displayName root pr.FileName) exclusions with
    | true =>
      have hstep : processStep root exclusions st pr = st := by
        unfold processStep
        rw [hex]
        rfl
      simp only [hex, Bool.not_true, Bool.false_eq_true, if_false, hstep]
      exact ih st
    | false =>
      simp only [hex, Bool.not_false, if_true, List.foldl_cons]
      exact ih _

/-- C5: no file summary in a successful `Report` has an excluded name,
and the Total summary is exactly what the retained (non-excluded)
profiles alone produce. -/
theorem generateReport_exclusion_correct (profiles : List Profile)
    (root : String) (exclusions : List String) (sortBy order : String)
    (rep : Report)
    (h : GenerateReportRel (.ok profiles) root exclusions sortBy order (rep, none)) :
    (∀ s ∈ rep.Files, isExcluded s.Name exclusions = false) ∧
    rep.Total = (processProfiles (profiles.filter
      (fun p => !isExcluded (displayName root p.FileName) exclusions))
      root exclusions).1.results := by
  obtain ⟨cmp, out, hcmp, hperm, hrep⟩ :=
    rel_ok_elim profiles root exclusions sortBy order rep h
  subst hrep
  constructor
  · intro s hs
    have hs' : s ∈ (processProfiles profiles root exclusions).2.map
        (fun p => p.2.results) := hperm.mem_iff.mpr hs
    rw [List.mem_map] at hs'
    obtain ⟨e, he, hse⟩ := hs'
    have hname := foldl_names root exclusions profiles
      ({ name := "Total" }, []) (by simp) e he
    rw [← hse]
    show isExcluded e.2.name exclusions = false
    rw [hname.2]
    exact hname.1
  · show (processProfiles profiles root exclusions).1.results = _
    unfold processProfiles
    rw [foldl_filter_retained root exclusions profiles]

/-- C5, witness at a concrete input with one excluded file. -/
theorem generateReport_exclusion_correct_witness :
    (∀ s ∈ (Report.mk (accumulator.results ⟨"Total", 1, 5, 1, 5⟩)
        [accumulator.results ⟨"b", 1, 5, 1, 5⟩]).Files,
      isExcluded s.Name ["skip"] = false) ∧
    (Report.mk (accumulator.results ⟨"Total", 1, 5, 1, 5⟩)
        [accumulator.results ⟨"b", 1, 5, 1, 5⟩]).Total =
      (processProfiles ([⟨"skip/x", [⟨1, 0⟩]⟩, ⟨"b", [⟨5, 5⟩]⟩].filter
        (fun p => !isExcluded (displayName "" p.FileName) ["skip"]))
        "" ["skip"]).1.results := by
  have hrel : GenerateReportRel (.ok [⟨"skip/x", [⟨1, 0⟩]⟩, ⟨"b", [⟨5, 5⟩]⟩])
      "" ["skip"] "filename" "asc"
      (Report.mk (accumulator.results ⟨"Total", 1, 5, 1, 5⟩)
        [accumulator.results ⟨"b", 1, 5, 1, 5⟩], none) := by
    show ∃ out, goSortResult _ _ out ∧ _
    refine ⟨[accumulator.results ⟨"b", 1, 5, 1, 5⟩],
      ⟨List.Perm.refl _, fun _ => ?_⟩, rfl⟩
    exact List.pairwise_singleton _ _
  exact generateReport_exclusion_correct [⟨"skip/x", [⟨1, 0⟩]⟩, ⟨"b", [⟨5, 5⟩]⟩]
    "" ["skip"] "filename" "asc" _ hrel

/-! Claim C8: accumulator invariants. -/

/-- Covered counts are non-negative and bounded by the totals. -/
def accInv (a : accumulator) : Prop :=
  0 ≤ a.coveredBlocks ∧ a.coveredBlocks ≤ a.blocks ∧
    0 ≤ a.coveredStmts ∧ a.coveredStmts ≤ a.stmts

lemma add_inv (a : accumulator) (b : ProfileBlock) (hb : 0 ≤ b.NumStmt)
    (h : accInv a) : accInv (a.add b) := by
  obtain ⟨h1, h2, h3, h4⟩ := h
  by_cases hc : b.Count > 0
  · simp only [accInv, accumulator.add, if_pos hc]
    omega
  · simp only [accInv, accumulator.add, if_neg hc]
    omega

lemma addAll_inv : ∀ (bs : List ProfileBlock), (∀ b ∈ bs, 0 ≤ b.NumStmt) →
    ∀ a : accumulator, accInv a → accInv (a.addAll bs) := by
  intro bs
  induction bs with
  | nil => intro _ a h; exact h
  | cons b rest ih =>
    intro hb a h
    show accInv ((a.add b).addAll rest)
    exact ih (fun b' hb' => hb b' (List.mem_cons_of_mem _ hb')) _
      (add_inv a b (hb b (List.mem_cons_self _ _)) h)

lemma updateFiles_inv : ∀ (files : List (String × accumulator)) (name : String)
    (bs : List ProfileBlock), (∀ b ∈ bs, 0 ≤ b.NumStmt) →
    (∀ e ∈ files, accInv e.2) →
    ∀ e ∈ updateFiles files name bs, accInv e.2 := by
  intro files
  induction files with
  | nil =>
    intro name bs hb _ e he
    rw [updateFiles, List.mem_singleton] at he
    subst he
    exact addAll_inv bs hb _ ⟨le_refl 0, le_refl 0, le_refl 0, le_refl 0⟩
  | cons entry rest ih =>
    intro name bs hb hfiles e he
    obtain ⟨n, a⟩ := entry
    rw [updateFiles] at he
    by_cases hn : n = name
    · rw [if_pos hn] at he
      rcases List.mem_cons.mp he with h' | h'
      · subst h'
        exact addAll_inv bs hb a (hfiles (n, a) (List.mem_cons_self _ _))
      · exact hfiles e (List.mem_cons_of_mem _ h')
    · rw [if_neg hn] at he
      rcases List.mem_cons.mp he with h' | h'
      · subst h'
        exact hfiles (n, a) (List.mem_cons_self _ _)
      · exact ih name bs hb (fun e' he' => hfiles e' (List.mem_cons_of_mem _ he')) e h'

lemma foldl_inv (root : String) (exclusions : List String) :
    ∀ (profiles : List Profile),
      (∀ p ∈ profiles, ∀ b ∈ p.Blocks, 0 ≤ b.NumStmt) →
      ∀ st : accumulator × List (String × accumulator),
        accInv st.1 → (∀ e ∈ st.2, accInv e.2) →
        accInv (profiles.foldl (processStep root exclusions) st).1 ∧
        ∀ e ∈ (profiles.foldl (processStep root exclusions) st).2, accInv e.2 := by
  intro profiles
  induction profiles with
  | nil => intro _ st h1 h2; exact ⟨h1, h2⟩
  | cons pr rest ih =>
    intro hp st h1 h2
    rw [List.foldl_cons]
    apply ih (fun p hp' => hp p (List.mem_cons_of_mem _ hp'))
    · unfold processStep
      by_cases hex : isExcluded (displayName root pr.FileName) exclusions = true
      · rw [if_pos hex]; exact h1
      · rw [if_neg hex]
        exact addAll_inv _ (hp pr (List.mem_cons_self _ _)) _ h1
    · unfold processStep
      by_cases hex : isExcluded (displayName root pr.FileName) exclusions = true
      · rw [if_pos hex]; exact h2
      · rw [if_neg hex]
        exact updateFiles_inv _ _ _ (hp pr (List.mem_cons_self _ _)) h2

lemma processProfiles_inv (profiles : List Profile) (root : String)
    (exclusions : List String)
    (hp : ∀ p ∈ profiles, ∀ b ∈ p.Blocks, 0 ≤ b.NumStmt) :
    accInv (processProfiles profiles root exclusions).1 ∧
    ∀ e ∈ (processProfiles profiles root exclusions).2, accInv e.2 := by
  unfold processProfiles
  exact foldl_inv root exclusions profiles hp _
    ⟨le_refl 0, le_refl 0, le_refl 0, le_refl 0⟩ (by simp)

/-- C8: every finalized Summary (the Total's and each file's) satisfies
MissingBlocks = Blocks − coveredBlocks and MissingStmts = Stmts −
coveredStmts, both non-negative (given the parser's guarantee that
statement counts are non-negative); and `add` increments the block count
by 1, the statement total by the block's `NumStmt`, and the covered
counts exactly when the execution count is positive. -/
theorem summary_missing_invariant (profiles : List Profile) (root : String)
    (exclusions : List String)
    (hpos : ∀ p ∈ profiles, ∀ b ∈ p.Blocks, 0 ≤ b.NumStmt) :
    (∀ a : accumulator,
      (a = (processProfiles profiles root exclusions).1 ∨
        a ∈ (processProfiles profiles root exclusions).2.map Prod.snd) →
      a.results.MissingBlocks = a.results.Blocks - a.coveredBlocks ∧
      a.results.MissingStmts = a.results.Stmts - a.coveredStmts ∧
      0 ≤ a.results.MissingBlocks ∧ 0 ≤ a.results.MissingStmts) ∧
    (∀ (a : accumulator) (b : ProfileBlock),
      (a.add b).blocks = a.blocks + 1 ∧
      (a.add b).stmts = a.stmts + b.NumStmt ∧
      (b.Count > 0 → (a.add b).coveredBlocks = a.coveredBlocks + 1 ∧
        (a.add b).coveredStmts = a.coveredStmts + b.NumStmt) ∧
      (¬ b.Count > 0 → (a.add b).coveredBlocks = a.coveredBlocks ∧
        (a.add b).coveredStmts = a.coveredStmts)) := by
  have hinv := processProfiles_inv profiles root exclusions hpos
  constructor
  · intro a ha
    have hai : accInv a := by
      rcases ha with h' | h'
      · rw [h']; exact hinv.1
      · rw [List.mem_map] at h'
        obtain ⟨e, he, hea⟩ := h'
        rw [← hea]
        exact hinv.2 e he
    obtain ⟨h1, h2, h3, h4⟩ := hai
    refine ⟨rfl, rfl, ?_, ?_⟩
    · show (0 : Int) ≤ a.blocks - a.coveredBlocks
      omega
    · show (0 : Int) ≤ a.stmts - a.coveredStmts
      omega
  · intro a b
    refine ⟨rfl, rfl, fun hc => ?_, fun hc => ?_⟩
    · constructor
      · show (if b.Count > 0 then a.coveredBlocks + 1 else a.coveredBlocks) = _
        rw [if_pos hc]
      · show (if b.Count > 0 then a.coveredStmts + b.NumStmt else a.coveredStmts) = _
        rw [if_pos hc]
    · constructor
      · show (if b.Count > 0 then a.coveredBlocks + 1 else a.coveredBlocks) = _
        rw [if_neg hc]
      · show (if b.Count > 0 then a.coveredStmts + b.NumStmt else a.coveredStmts) = _
        rw [if_neg hc]

/-- C8, witness at a concrete profile and a concrete `add` call. -/
theorem summary_missing_invariant_witness :
    (0 : Int) ≤ (processProfiles [⟨"a", [⟨3, 1⟩, ⟨2, 0⟩]⟩] "" []).1.results.MissingStmts ∧
    ((⟨"x", 1, 2, 0, 1⟩ : accumulator).add ⟨5, 0⟩).stmts = 2 + 5 := by
  constructor
  · exact ((summary_missing_invariant [⟨"a", [⟨3, 1⟩, ⟨2, 0⟩]⟩] "" []
      (by decide)).1 _ (Or.inl rfl)).2.2.2
  · exact ((summary_missing_invariant [⟨"a", [⟨3, 1⟩, ⟨2, 0⟩]⟩] "" []
      (by decide)).2 ⟨"x", 1, 2, 0, 1⟩ ⟨5, 0⟩).2.1
